import Mathlib

/-!
Verification development for the `goconfig` environment-variable binding
library (`config.go`, `transformer.go`, `option.go`).

The Go source is shallowly embedded: reflective record shapes become the
inductive type `GoConfig.Ty` paired with per-field metadata `GoConfig.FieldMeta`,
runtime values become `GoConfig.Val`, and each Go function of the binding
engine (`buildEnvKey`, `getFieldName`, `setFieldVal`, `setSliceValue`,
`setStructVal`, `loadToField`, `loopOverFields`, `recursiveLoadToStruct`,
`Load`, `New`, the `With*` options and `UperCaseTransformer`) is translated
one-for-one into a Lean definition of the same name.  Go's in-place mutation
through `reflect.Value` is modelled by explicit state passing: every engine
function returns the updated value next to its `(found, err)` result, and a
recovered panic is a distinct outcome constructor so that the `defer/recover`
guards of the source can be modelled faithfully.

Modelled scope: the field kinds exercised by the claims — `string`, `bool`,
signed and unsigned integers of width 8/16/32/64 (Go's `int`/`uint` count as
width 64), slices, `map[string]string`, structs, pointers, plus a catch-all
unsupported kind.  `time.Duration` and the float kinds are outside the model
universe, and none of the modelled field types implements
`encoding.TextUnmarshaler`, so the `isTextUnmarshaler` test of the source is
constantly false here and its branch is dropped.
-/

namespace GoConfig

/-- Per-field metadata of a Go struct field, as the engine reads it from
`reflect.StructField`: the declared identifier, the optional `env` tag
(exact name), the optional `alias` tag, the `Anonymous` (embedded) flag, and
whether `reflect.Value.CanSet` holds (the field is exported). -/
structure FieldMeta where
  name : String
  envTag : Option String
  aliasTag : Option String
  anonymous : Bool
  canSet : Bool
deriving Repr, DecidableEq

/-- The modelled universe of Go field types.  `int`/`uint` carry their bit
width (8, 16, 32 or 64; Go's platform-sized `int`/`uint` are width 64).
`struc` carries the field list (metadata and type per field), `ptr` one level
of pointer indirection, and `unsupported` stands for any kind the engine's
`setFieldVal` dispatch rejects (e.g. `chan`, `func`). -/
inductive Ty where
  | str : Ty
  | bool : Ty
  | int (w : Nat) : Ty
  | uint (w : Nat) : Ty
  | slice (elem : Ty) : Ty
  | mapStrStr : Ty
  | struc (fields : List (FieldMeta × Ty)) : Ty
  | ptr (t : Ty) : Ty
  | unsupported (goName : String) : Ty
deriving Repr

/-- Runtime values for `Ty`.  A nil pointer is `ptr none`; a nil (unset)
slice is `slice none`; a nil map is `mapV none`.  `invalid` is the zero
`reflect.Value` obtained e.g. by dereferencing a nil pointer. -/
inductive Val where
  | str (s : String) : Val
  | bool (b : Bool) : Val
  | int (w : Nat) (n : Int) : Val
  | uint (w : Nat) (n : Nat) : Val
  | slice (content : Option (List Val)) : Val
  | mapV (content : Option (List (String × String))) : Val
  | struc (fields : List Val) : Val
  | ptr (pointee : Option Val) : Val
  | unsupportedV : Val
  | invalid : Val
deriving Repr

/-- The environment store: `os.LookupEnv` as a pure map. -/
def Env : Type := String → Option String

/-- The `Loader` configuration struct.  The source field `prefix` is renamed
`pfx` because `prefix` is a Lean keyword; `fieldNameTransformer` is an
`Option` because the Go function field may be nil. -/
structure Loader where
  pfx : String
  sep : String
  arraySep : String
  fieldNameTransformer : Option (String → String)

/-- `DefaultSep` of the source. -/
def DefaultSep : String := "_"

/-- `DefaultArrSep` of the source. -/
def DefaultArrSep : String := ","

/-- `VoidTransformer` of `transformer.go`: returns the key unchanged. -/
def VoidTransformer (key : String) : String := key

/-- Whether `unicode.ToUpper` changes the rune - the `canToUpper` closure of
`UperCaseTransformer` (ASCII model: Go identifiers in this development are
ASCII, where `unicode.ToUpper`/`IsUpper`/`IsLetter` agree with `Char.toUpper`
/`Char.isUpper`/`Char.isAlpha`). -/
def canToUpper (c : Char) : Bool := c.toUpper ≠ c

/-- One step of the `UperCaseTransformer` loop: `prev` is `runes[i-1]` (none
when `i = 0`) and the head of the second argument is `runes[i]`, so
`rest.head?` is `runes[i+1]` (none when `i = n-1`). -/
def uperCaseAux : Option Char → List Char → List Char
  | _, [] => []
  | prev, c :: rest =>
    let cond :=
      match prev with
      | none => false
      | some p =>
        c.isUpper && c.isAlpha && p ≠ '_' &&
          ((match rest.head? with
            | some nx => canToUpper nx
            | none => false) || canToUpper p)
    (if cond then ['_', c] else [c.toUpper]) ++ uperCaseAux (some c) rest

/-- `UperCaseTransformer` of `transformer.go`: PascalCase to MACRO_CASE,
e.g. `DBConnection => DB_CONNECTION`, `KeyA => KEY_A` (ASCII model). -/
def UperCaseTransformer (key : String) : String :=
  String.mk (uperCaseAux none key.data)

/-- `New` builds a `Loader` from the defaults and applies the options in
order.  Options are plain `Loader → Loader` updates (the source's `Option`
function type, renamed to avoid Lean's `Option`). -/
def New (options : List (Loader → Loader)) : Loader :=
  options.foldl (fun c opt => opt c)
    { pfx := ""
      sep := DefaultSep
      arraySep := DefaultArrSep
      fieldNameTransformer := some UperCaseTransformer }

/-- `WithPrefix` of `option.go`. -/
def WithPrefix (p : String) : Loader → Loader :=
  fun c => { c with pfx := p }

/-- `WithSeparator` of `option.go`. -/
def WithSeparator (sep : String) : Loader → Loader :=
  fun c => { c with sep := sep }

/-- `WithArraySeparator` of `option.go`. -/
def WithArraySeparator (sep : String) : Loader → Loader :=
  fun c => { c with arraySep := sep }

/-- `WithKeyTransformer` of `option.go`. -/
def WithKeyTransformer (tr : String → String) : Loader → Loader :=
  fun c => { c with fieldNameTransformer := some tr }

/-- One step of Go's `strings.Split` for a non-empty separator: scan left to
right accumulating the current segment; as soon as the accumulated segment
ends with the separator, the (leftmost) occurrence is cut off and a new
segment starts.  This reproduces `strings.Split`'s successive
leftmost-occurrence splitting. -/
def goSplitAux (sep : List Char) : List Char → List Char → List (List Char)
  | acc, [] => [acc]
  | acc, c :: cs =>
    let acc2 := acc ++ [c]
    if sep.isSuffixOf acc2 then
      acc2.take (acc2.length - sep.length) :: goSplitAux sep [] cs
    else
      goSplitAux sep acc2 cs

/-- Go's `strings.Split`.  With an empty separator Go explodes the string
into its runes (yielding `[]` on the empty string); otherwise it splits
around each leftmost occurrence of the separator (yielding `[""]` on the
empty string). -/
def goSplit (s sep : String) : List String :=
  if sep.data = [] then s.data.map (fun c => String.mk [c])
  else (goSplitAux sep.data [] s.data).map String.mk

/-- Accumulate a base-10 natural number; `none` when the list is empty or
contains a non-digit, mirroring `strconv`'s digit scan. -/
def digitsToNat : List Char → Option Nat
  | [] => none
  | ds => go ds 0
where
  go : List Char → Nat → Option Nat
    | [], acc => some acc
    | c :: cs, acc =>
      if '0' ≤ c ∧ c ≤ '9' then go cs (acc * 10 + (c.toNat - '0'.toNat))
      else none

/-- `strconv.ParseInt(s, 10, 64)`: an optional single leading sign, then
base-10 digits; the result must fit in a signed 64-bit integer, otherwise
the range error is reported as `none` (the engine only checks error
non-nilness). -/
def goParseInt64 (s : String) : Option Int :=
  match s.data with
  | [] => none
  | c :: rest =>
    let signDigits : Bool × List Char :=
      if c = '-' then (true, rest)
      else if c = '+' then (false, rest)
      else (false, c :: rest)
    match digitsToNat signDigits.2 with
    | none => none
    | some n =>
      if signDigits.1 then
        if n ≤ 2 ^ 63 then some (-(n : Int)) else none
      else
        if n ≤ 2 ^ 63 - 1 then some (n : Int) else none

/-- `strconv.ParseUint(s, 10, 64)`: no sign permitted, base-10 digits, must
fit in 64 bits. -/
def goParseUint64 (s : String) : Option Nat :=
  match digitsToNat s.data with
  | none => none
  | some n => if n ≤ 2 ^ 64 - 1 then some n else none

/-- `strconv.ParseBool`: exactly the tokens accepted by the Go standard
library. -/
def goParseBool (s : String) : Option Bool :=
  if s = "1" ∨ s = "t" ∨ s = "T" ∨ s = "TRUE" ∨ s = "true" ∨ s = "True" then
    some true
  else if s = "0" ∨ s = "f" ∨ s = "F" ∨ s = "FALSE" ∨ s = "false" ∨ s = "False" then
    some false
  else none

/-- `reflect.Value.SetInt` into a field of bit width `w`: the int64 is
converted by Go's integer conversion, i.e. truncated to `w` bits in two's
complement (no range check, no panic). -/
def wrapInt (w : Nat) (i : Int) : Int :=
  (i + 2 ^ (w - 1)) % (2 ^ w : Nat) - 2 ^ (w - 1)

/-- `reflect.Value.SetUint` into a field of bit width `w`: truncation
modulo `2 ^ w`. -/
def wrapUint (w : Nat) (n : Nat) : Nat := n % 2 ^ w

/-- Parse one JSON string literal after its opening quote, returning the
string and the rest of the input.  Supports the `\"`, `\\`, `\n`, `\t`,
`\r`, `\/` escapes (a modelled subset of `encoding/json`). -/
def parseJsonString : List Char → Option (String × List Char)
  | [] => none
  | '"' :: rest => some ("", rest)
  | '\\' :: e :: rest =>
    let esc : Option Char :=
      if e = '"' then some '"'
      else if e = '\\' then some '\\'
      else if e = 'n' then some '\n'
      else if e = 't' then some '\t'
      else if e = 'r' then some '\r'
      else if e = '/' then some '/'
      else none
    match esc with
    | none => none
    | some ec =>
      match parseJsonString rest with
      | none => none
      | some (s, rest2) => some (String.mk (ec :: s.data), rest2)
  | c :: rest =>
    match parseJsonString rest with
    | none => none
    | some (s, rest2) => some (String.mk (c :: s.data), rest2)

/-- Skip JSON whitespace. -/
def skipWs : List Char → List Char
  | c :: rest =>
    if c = ' ' ∨ c = '\n' ∨ c = '\t' ∨ c = '\r' then skipWs rest else c :: rest
  | [] => []

/-- Parse the members of a JSON object of string values after the opening
brace, `expectComma` telling whether a member was already read.  Returns the
key/value pairs in textual order. -/
def parseJsonMembers : Nat → Bool → List Char → Option (List (String × String))
  | 0, _, _ => none
  | _ + 1, _, [] => none
  | fuel + 1, expectComma, input =>
    match skipWs input with
    | [] => none
    | c :: rest =>
      if c = '}' then
        if skipWs rest = [] then some [] else none
      else if expectComma then
        if c = ',' then parseJsonMembers fuel false rest else none
      else if c = '"' then
        match parseJsonString rest with
        | none => none
        | some (k, rest2) =>
          match skipWs rest2 with
          | ':' :: rest3 =>
            match skipWs rest3 with
            | '"' :: rest4 =>
              match parseJsonString rest4 with
              | none => none
              | some (v, rest5) =>
                match parseJsonMembers fuel true rest5 with
                | none => none
                | some kvs => some ((k, v) :: kvs)
            | _ => none
          | _ => none
      else none

/-- `json.Unmarshal` of a `map[string]string` target, modelled for flat
object literals `{"k":"v",...}` (escape and unicode handling simplified;
only the error/success split and the resulting pairs matter to the engine). -/
def parseJsonStrMap (s : String) : Option (List (String × String)) :=
  match skipWs s.data with
  | '{' :: rest => parseJsonMembers (rest.length + 1) false rest
  | _ => none

/-- The `joinKeys` closure of `buildEnvKey`: the non-empty prefix (if any)
followed by the non-empty names, joined with the configured separator
(`strings.Join`). -/
def joinKeys (c : Loader) (names : List String) : String :=
  String.intercalate c.sep
    ((if c.pfx = "" then [] else [c.pfx]) ++ names.filter (fun n => n ≠ ""))

/-- `getFieldName`: the `env` tag wins and is exact; otherwise the `alias`
tag; otherwise the field name, put through the transformer when one is
configured. -/
def getFieldName (c : Loader) (tf : FieldMeta) : String × Bool :=
  match tf.envTag with
  | some tag => (tag, true)
  | none =>
    match tf.aliasTag with
    | some tag => (tag, false)
    | none =>
      match c.fieldNameTransformer with
      | some tr => (tr tf.name, false)
      | none => (tf.name, false)

/-- `buildEnvKey`: an anonymous field contributes no segment and keeps the
parent stack; otherwise the field name (exact or not) is appended to the
stack first, and the lookup key is the joined stack for a non-exact name or
the bare name for an exact one. -/
def buildEnvKey (c : Loader) (tf : FieldMeta) (parentKeys : List String) :
    String × List String :=
  if tf.anonymous then
    (joinKeys c parentKeys, parentKeys)
  else
    let ne := getFieldName c tf
    let parentKeys2 := parentKeys ++ [ne.1]
    if ne.2 = false then (joinKeys c parentKeys2, parentKeys2)
    else (ne.1, parentKeys2)

/-- `getDirectType`: strip all pointer indirections from a type. -/
def getDirectType : Ty → Ty
  | .ptr t => getDirectType t
  | t => t

/-- `getDirectVal`: follow pointers until a non-pointer value; dereferencing
a nil pointer yields the invalid `reflect.Value`. -/
def getDirectVal : Val → Val
  | .ptr (some v) => getDirectVal v
  | .ptr none => .invalid
  | v => v

/-- Replace the value found by `getDirectVal`, i.e. model an assignment
through the chain of non-nil pointers (`reflect` assignment after
dereferencing). -/
def setDirect : Val → Val → Val
  | .ptr (some v), nv => .ptr (some (setDirect v nv))
  | .ptr none, _ => .ptr none
  | _, nv => nv

/-- `isStruct` of the source (`kind == reflect.Struct`). -/
def isStruct : Ty → Bool
  | .struc _ => true
  | _ => false

/-- Render a type name, standing in for Go's `%T`/`Type.String()` in error
messages. -/
def typeName : Ty → String
  | .str => "string"
  | .bool => "bool"
  | .int w => "int" ++ toString w
  | .uint w => "uint" ++ toString w
  | .slice e => "[]" ++ typeName e
  | .mapStrStr => "map[string]string"
  | .struc _ => "struct"
  | .ptr t => "*" ++ typeName t
  | .unsupported goName => goName

mutual

/-- The zero `Val` of a type: `reflect.New`'s pointee / Go's zero value. -/
def zeroVal : Ty → Val
  | .str => .str ""
  | .bool => .bool false
  | .int w => .int w 0
  | .uint w => .uint w 0
  | .slice _ => .slice none
  | .mapStrStr => .mapV none
  | .struc gs => .struc (zeroVals gs)
  | .ptr _ => .ptr none
  | .unsupported _ => .unsupportedV
termination_by t => sizeOf t

/-- Zero values of a field list (the pointee of `reflect.New` on a struct
type). -/
def zeroVals : List (FieldMeta × Ty) → List Val
  | [] => []
  | f :: fs => zeroVal f.2 :: zeroVals fs
termination_by fs => sizeOf fs
decreasing_by
all_goals cases f with
| mk a b => simp; try omega

end

/-- Structured model of the error values the engine produces.
`cannotSetField` is `errors.Wrapf(err, "cannot set field %s value", envKey)`;
`cannotSetSlice` is `errors.Wrapf(err, "cannot set slice value")`;
`panicAtStruct`/`panicAtField` are the errors built by the `recover` guards
of `recursiveLoadToStruct` and `loadToField` (carrying the `%T` rendering and
the `strings.Join(prefix, c.sep)` rendering they format); `notPointer` is
`"should be a pointer to %T"`; the remaining constructors are the leaf
errors of the coercion helpers. -/
inductive Err where
  | notPointer (tyName : String) : Err
  | panicAtStruct (tyName joinedKeys payload : String) : Err
  | panicAtField (tyName joinedKeys payload : String) : Err
  | cannotSetField (envKey : String) (inner : Err) : Err
  | cannotSetSlice (inner : Err) : Err
  | parseErr (fn input : String) : Err
  | jsonErr (input : String) : Err
  | unsupportedTy (goName : String) : Err
deriving Repr, DecidableEq

/-- Outcome of an engine step together with the state of the value it was
mutating (Go mutates in place, so on an error or a propagating panic the
mutations done so far persist in the caller's record; the model therefore
returns the value in every outcome).  `ok found v` is a normal
`(found, nil)` return, `err e v` a normal `(_, e)` return, and
`panicked p v` an un-recovered runtime panic carrying its payload. -/
inductive Res (α : Type) where
  | ok (found : Bool) (v : α) : Res α
  | err (e : Err) (v : α) : Res α
  | panicked (payload : String) (v : α) : Res α
deriving Repr

/-- The payload of the `reflect` panic raised by calling `NumField` on a
non-struct value. -/
def numFieldPanicMsg : String := "reflect: call of NumField on non-struct Value"

/-- The payload of the `reflect` panic raised by `Type.Field` when the index
exceeds the struct type's field count. -/
def fieldRangePanicMsg : String := "reflect: Field index out of range"

/-- The payload of the `reflect` panic raised by interrogating the zero
(invalid) `reflect.Value`. -/
def invalidValuePanicMsg : String := "reflect: call of Type on zero Value"

theorem getDirectType_size_le (t : Ty) : sizeOf (getDirectType t) ≤ sizeOf t :=
  match t with
  | .ptr t' => by
    have ih := getDirectType_size_le t'
    have hstep : getDirectType (Ty.ptr t') = getDirectType t' := rfl
    rw [hstep]
    simp
    omega
  | .str => by simp [getDirectType]
  | .bool => by simp [getDirectType]
  | .int _ => by simp [getDirectType]
  | .uint _ => by simp [getDirectType]
  | .slice _ => by simp [getDirectType]
  | .mapStrStr => by simp [getDirectType]
  | .struc _ => by simp [getDirectType]
  | .unsupported _ => by simp [getDirectType]

mutual

/-- `setFieldVal`: coerce `envVal` into the (possibly pointer-typed) field.
A nil pointer field is first made to point at a fresh zero value
(`reflect.New`), the value is dereferenced (`getDirectVal`), and the
coercion dispatches on the dereferenced value's kind exactly as the source's
switch does.  The source's leading `CanSet` rejection is omitted because
both call sites (`loadToField` after its own `CanSet` check, and slice
elements) always pass settable values, and the `isTextUnmarshaler` branch is
constantly false in the modelled universe.  `ok set v` corresponds to the
source's `(set, nil)` with the mutated field value `v`. -/
def setFieldVal (c : Loader) (fty : Ty) (fval : Val) (envVal : String) :
    Res Val :=
  let v1 : Val :=
    match fty, fval with
    | .ptr t, .ptr none => .ptr (some (zeroVal t))
    | _, _ => fval
  match getDirectVal v1 with
  | .str _ => .ok true (setDirect v1 (.str envVal))
  | .bool _ =>
    match goParseBool envVal with
    | some b => .ok true (setDirect v1 (.bool b))
    | none => .err (.parseErr "ParseBool" envVal) v1
  | .int w _ =>
    match goParseInt64 envVal with
    | some i => .ok true (setDirect v1 (.int w (wrapInt w i)))
    | none => .err (.parseErr "ParseInt" envVal) v1
  | .uint w _ =>
    match goParseUint64 envVal with
    | some n => .ok true (setDirect v1 (.uint w (wrapUint w n)))
    | none => .err (.parseErr "ParseUint" envVal) v1
  | .slice _ =>
    match h : getDirectType fty with
    | .slice elemTy =>
      let parts := goSplit envVal c.arraySep
      if parts = [] then .ok true v1
      else
        match setSliceParts c elemTy parts with
        | .ok _ elems => .ok true (setDirect v1 (.slice (some elems)))
        | .err e _ => .err e v1
        | .panicked p _ => .panicked p v1
    | _ => .panicked "slice value of non-slice type" v1
  | .mapV _ =>
    match parseJsonStrMap envVal with
    | some kvs => .ok true (setDirect v1 (.mapV (some kvs)))
    | none => .err (.jsonErr envVal) v1
  | .struc _ => .ok false v1
  | .ptr _ => .panicked "pointer value after full dereference" v1
  | .unsupportedV =>
    .err (.unsupportedTy (typeName (getDirectType fty))) v1
  | .invalid => .panicked invalidValuePanicMsg v1
termination_by (sizeOf fty, 0)
decreasing_by
  have hle : sizeOf (getDirectType fty) ≤ sizeOf fty := getDirectType_size_le fty
  rw [h] at hle
  apply Prod.Lex.left
  simp at hle
  omega

/-- The element loop of `setSliceValue`: each part is coerced into a fresh
zero element (`reflect.MakeSlice` elements) via `setFieldVal`; the first
element error aborts the whole field wrapped as a slice-element error, and
on success the collected elements become the new slice content. -/
def setSliceParts (c : Loader) (elemTy : Ty) (parts : List String) :
    Res (List Val) :=
  match parts with
  | [] => .ok true []
  | p :: ps =>
    match setFieldVal c elemTy (zeroVal elemTy) p with
    | .err e _ => .err (.cannotSetSlice e) []
    | .panicked pc _ => .panicked pc []
    | .ok _ v =>
      match setSliceParts c elemTy ps with
      | .ok b rest => .ok b (v :: rest)
      | .err e rest => .err e (v :: rest)
      | .panicked pc rest => .panicked pc (v :: rest)
termination_by (sizeOf elemTy, parts.length + 1)
decreasing_by
· exact Prod.Lex.right (sizeOf elemTy) (by simp only [List.length_cons]; omega)
· exact Prod.Lex.right (sizeOf elemTy) (by simp only [List.length_cons]; omega)

end

/-- Lexicographic helper for the termination proofs of the walk. -/
theorem lex_helper {a b i j : Nat} (hab : a ≤ b) (hij : i < j) :
    Prod.Lex (· < ·) (· < ·) (a, i) (b, j) := by
  rcases Nat.lt_or_ge a b with h | h
  · exact Prod.Lex.left _ _ h
  · have hba : a = b := Nat.le_antisymm hab h
    subst hba
    exact Prod.Lex.right _ hij

/-- Variant of `getDirectType_size_le` through one explicit pointer layer. -/
theorem getDirectType_ptr_size_le (t : Ty) :
    sizeOf (getDirectType (Ty.ptr t)) ≤ sizeOf t := by
  have h : getDirectType (Ty.ptr t) = getDirectType t := rfl
  rw [h]
  exact getDirectType_size_le t

/-- Unwrap the pointer produced by recursing through `vf.Addr()`: the
recursion always hands back a non-nil pointer whose pointee is the mutated
field; the fallback is never reached. -/
def unwrapAddr : Val → Val → Val
  | .ptr (some x), _ => x
  | _, fallback => fallback

mutual

/-- `recursiveLoadToStruct`: reject a non-pointer argument, then walk the
fields of the fully dereferenced type over the once-dereferenced value,
converting any panic escaping the walk into the guard's error (the `defer`/
`recover` block), which names `%T` of the argument and the `strings.Join` of
the current prefix stack. -/
def recursiveLoadToStruct (c : Loader) (env : Env) (sTy : Ty) (sVal : Val)
    (parentKeys : List String) : Res Val :=
  match sVal with
  | .ptr inner =>
    let vElem : Val :=
      match inner with
      | some v => v
      | none => .invalid
    match loopOverFields c env (getDirectType sTy) vElem parentKeys with
    | .ok found v2 => .ok found (.ptr (inner.map fun _ => v2))
    | .err e v2 => .err e (.ptr (inner.map fun _ => v2))
    | .panicked p v2 =>
      .err (.panicAtStruct (typeName sTy)
        (String.intercalate c.sep parentKeys) p) (.ptr (inner.map fun _ => v2))
  | _ => .err (.notPointer (typeName sTy)) sVal
termination_by (sizeOf (getDirectType sTy), 2)
decreasing_by
  exact Prod.Lex.right (sizeOf (getDirectType sTy)) (by omega)

/-- `loopOverFields`: `v.NumField()` panics on a non-struct value; otherwise
each field is processed in declaration order, stopping at the first error,
OR-ing the per-field `found` results.  (The degenerate type/value mismatch
cases reproduce the corresponding `reflect` faults and are unreachable for
type-correct values.) -/
def loopOverFields (c : Loader) (env : Env) (t : Ty) (v : Val)
    (parentKeys : List String) : Res Val :=
  match v with
  | .struc vs =>
    match t with
    | .struc fields =>
      match loopFieldsList c env fields vs parentKeys with
      | .ok found vs2 => .ok found (.struc vs2)
      | .err e vs2 => .err e (.struc vs2)
      | .panicked p vs2 => .panicked p (.struc vs2)
    | _ =>
      match vs with
      | [] => .ok false v
      | _ => .panicked fieldRangePanicMsg v
  | _ => .panicked numFieldPanicMsg v
termination_by (sizeOf t, 1)
decreasing_by
  apply Prod.Lex.left
  simp
  try omega

/-- The field loop of `loopOverFields` over the parallel lists of field
descriptors and field values (`t.Field(i)` / `v.Field(i)`): the first
per-field error is returned as is (`return false, err`), and the values
processed so far keep their mutations. -/
def loopFieldsList (c : Loader) (env : Env) (fields : List (FieldMeta × Ty))
    (vs : List Val) (parentKeys : List String) : Res (List Val) :=
  match vs, fields with
  | [], _ => .ok false []
  | v :: vs2, [] => .panicked fieldRangePanicMsg (v :: vs2)
  | v :: vs2, f :: fs =>
    match loadToField c env f.1 f.2 v parentKeys with
    | .err e v2 => .err e (v2 :: vs2)
    | .panicked p v2 => .panicked p (v2 :: vs2)
    | .ok foundF v2 =>
      match loopFieldsList c env fs vs2 parentKeys with
      | .ok found rest => .ok (foundF || found) (v2 :: rest)
      | .err e rest => .err e (v2 :: rest)
      | .panicked p rest => .panicked p (v2 :: rest)
termination_by (sizeOf fields, 0)
decreasing_by
· apply Prod.Lex.left
  cases f with
  | mk a b => simp; try omega
· apply Prod.Lex.left
  simp
  try omega

/-- `loadToField` body after the `defer` guard is installed: look the
derived key up; when present, coerce via `setFieldVal`, wrapping a coercion
error with the offending key (`errors.Wrapf`); when the coercion did not
set (or the key is absent) and the dereferenced field type is a struct,
recurse via `setStructVal` with the new segment stack. -/
def loadToFieldCore (c : Loader) (env : Env) (tf : FieldMeta) (fty : Ty)
    (vf : Val) (parentKeys : List String) : Res Val :=
  let kk := buildEnvKey c tf parentKeys
  match env kk.1 with
  | some envVal =>
    match setFieldVal c fty vf envVal with
    | .err e v2 => .err (.cannotSetField kk.1 e) v2
    | .panicked p v2 => .panicked p v2
    | .ok set v2 =>
      if set then .ok true v2
      else if isStruct (getDirectType fty) then setStructVal c env fty v2 kk.2
      else .ok false v2
  | none =>
    if isStruct (getDirectType fty) then setStructVal c env fty vf kk.2
    else .ok false vf
termination_by (sizeOf fty, 4)
decreasing_by
· exact Prod.Lex.right (sizeOf fty) (by omega)
· exact Prod.Lex.right (sizeOf fty) (by omega)

/-- `loadToField`: skip non-settable (unexported) fields, then run the body
under the `recover` guard, which converts an escaping panic into an error
naming the dereferenced field type and the joined new segment stack. -/
def loadToField (c : Loader) (env : Env) (tf : FieldMeta) (fty : Ty)
    (vf : Val) (parentKeys : List String) : Res Val :=
  if tf.canSet = false then .ok false vf
  else
    match loadToFieldCore c env tf fty vf parentKeys with
    | .panicked p v2 =>
      .err (.panicAtField (typeName (getDirectType fty))
        (String.intercalate c.sep (buildEnvKey c tf parentKeys).2) p) v2
    | r => r
termination_by (sizeOf fty, 5)
decreasing_by
  exact Prod.Lex.right (sizeOf fty) (by omega)

/-- `setStructVal`: recurse into a record-shaped field.  A nil pointer field
gets a fresh `reflect.New` allocation which is only assigned to the field
when the recursion found something; any other field is recursed into through
its address. -/
def setStructVal (c : Loader) (env : Env) (fty : Ty) (vf : Val)
    (parentKeys : List String) : Res Val :=
  match fty, vf with
  | .ptr elemTy, .ptr none =>
    match recursiveLoadToStruct c env (.ptr elemTy)
        (.ptr (some (zeroVal elemTy))) parentKeys with
    | .ok found newPtr => .ok found (if found then newPtr else .ptr none)
    | .err e _ => .err e (.ptr none)
    | .panicked p _ => .panicked p (.ptr none)
  | fty2, vf2 =>
    match recursiveLoadToStruct c env (.ptr fty2) (.ptr (some vf2)) parentKeys with
    | .ok found v2 => .ok found (unwrapAddr v2 vf2)
    | .err e v2 => .err e (unwrapAddr v2 vf2)
    | .panicked p v2 => .panicked p (unwrapAddr v2 vf2)
termination_by (sizeOf fty, 3)
decreasing_by
· exact lex_helper (getDirectType_size_le _) (by omega)
· exact lex_helper (getDirectType_ptr_size_le _) (by omega)

end

mutual

/-- All lookup keys the walk can consult at or beneath a field: the field's
own derived key, and, when the dereferenced field type is a struct, every
key derivable inside it under the extended segment stack.  This is the
"keys derivable beneath a field" notion used by the specification's
quantifications. -/
def fieldKeys (c : Loader) (f : FieldMeta × Ty) (parentKeys : List String) :
    List String :=
  let kk := buildEnvKey c f.1 parentKeys
  kk.1 ::
    (match h : getDirectType f.2 with
     | .struc gs => structKeys c gs kk.2
     | _ => [])
termination_by (sizeOf f.2, 1)
decreasing_by
  apply Prod.Lex.left
  have hle := getDirectType_size_le f.2
  rw [h] at hle
  simp at hle
  omega

/-- All lookup keys derivable among the fields of a struct shape. -/
def structKeys (c : Loader) (gs : List (FieldMeta × Ty))
    (parentKeys : List String) : List String :=
  match gs with
  | [] => []
  | f :: fs => fieldKeys c f parentKeys ++ structKeys c fs parentKeys
termination_by (sizeOf gs, 0)
decreasing_by
· apply Prod.Lex.left
  cases f with
  | mk a b => simp; try omega
· apply Prod.Lex.left
  simp
  try omega

end

mutual

/-- A field type is benign when the walk can traverse it without tripping
the `reflect` fault of `loopOverFields`: every record shape reached by full
pointer dereferencing sits behind at most one pointer (the engine calls
`v.NumField()` on the once-dereferenced value but enumerates the fields of
the fully dereferenced type, so a doubly indirect record field always
panics), recursively through nested records. -/
def benignTy : Ty → Bool
  | .struc gs => benignFields gs
  | .ptr (.struc gs) => benignFields gs
  | .ptr t => !(isStruct (getDirectType t))
  | _ => true
termination_by t => (sizeOf t, 1)
decreasing_by
· apply Prod.Lex.left
  simp
  try omega
· apply Prod.Lex.left
  simp
  try omega

/-- All fields of a struct shape are benign (a non-settable field is skipped
by the walk, so its type does not matter). -/
def benignFields : List (FieldMeta × Ty) → Bool
  | [] => true
  | f :: fs => (!f.1.canSet || benignTy f.2) && benignFields fs
termination_by fs => (sizeOf fs, 0)
decreasing_by
· apply Prod.Lex.left
  cases f with
  | mk a b => simp; try omega
· apply Prod.Lex.left
  simp
  try omega

end

/-- A single field (metadata and type) is benign. -/
def benignField (f : FieldMeta × Ty) : Bool :=
  !f.1.canSet || benignTy f.2

theorem ty_sizeOf_pos (t : Ty) : 0 < sizeOf t := by
  cases t <;> (simp; try omega)

theorem fields_sizeOf_pos (gs : List (FieldMeta × Ty)) : 0 < sizeOf gs := by
  cases gs <;> (simp; try omega)

/-- A benign type whose full dereferencing is a struct is that struct or a
single pointer to it. -/
theorem benignTy_struc_cases {ty : Ty} {gs : List (FieldMeta × Ty)}
    (hben : benignTy ty = true) (hd : getDirectType ty = .struc gs) :
    (ty = .struc gs ∧ benignFields gs = true) ∨
      (ty = .ptr (.struc gs) ∧ benignFields gs = true) := by
  cases ty with
  | str => simp [getDirectType] at hd
  | bool => simp [getDirectType] at hd
  | int w => simp [getDirectType] at hd
  | uint w => simp [getDirectType] at hd
  | slice e => simp [getDirectType] at hd
  | mapStrStr => simp [getDirectType] at hd
  | unsupported s => simp [getDirectType] at hd
  | struc gs2 =>
    have hg : gs2 = gs := by simpa [getDirectType] using hd
    subst hg
    left
    exact ⟨rfl, by simpa [benignTy] using hben⟩
  | ptr t =>
    have hdt : getDirectType t = .struc gs := by
      have hstep : getDirectType (Ty.ptr t) = getDirectType t := rfl
      rw [hstep] at hd
      exact hd
    cases t with
    | struc gs2 =>
      have hg : gs2 = gs := by simpa [getDirectType] using hdt
      subst hg
      right
      exact ⟨rfl, by simpa [benignTy] using hben⟩
    | ptr t2 =>
      simp only [benignTy, hdt, isStruct] at hben
      simp at hben
    | str => simp [getDirectType] at hdt
    | bool => simp [getDirectType] at hdt
    | int w => simp [getDirectType] at hdt
    | uint w => simp [getDirectType] at hdt
    | slice e => simp [getDirectType] at hdt
    | mapStrStr => simp [getDirectType] at hdt
    | unsupported s => simp [getDirectType] at hdt

/-- Membership transport from a member field's keys into the struct's keys. -/
theorem mem_structKeys {c : Loader} {gs : List (FieldMeta × Ty)}
    {keys : List String} {g : FieldMeta × Ty} (hg : g ∈ gs) {k : String}
    (hk : k ∈ fieldKeys c g keys) : k ∈ structKeys c gs keys := by
  induction gs with
  | nil => cases hg
  | cons f fs ihg =>
    rw [structKeys]
    rcases List.mem_cons.mp hg with hgf | hg2
    · subst hgf
      exact List.mem_append.mpr (Or.inl hk)
    · exact List.mem_append.mpr (Or.inr (ihg hg2))

theorem benignFields_mem {gs : List (FieldMeta × Ty)}
    (h : benignFields gs = true) {g : FieldMeta × Ty} (hg : g ∈ gs) :
    benignField g = true := by
  induction gs with
  | nil => cases hg
  | cons f fs ihg =>
    rw [benignFields] at h
    rw [Bool.and_eq_true] at h
    rcases List.mem_cons.mp hg with hgf | hg2
    · subst hgf
      rw [benignField]
      exact h.1
    · exact ihg h.2 hg2

/-- The head of `fieldKeys` is the field's own derived key. -/
theorem own_key_mem_fieldKeys (c : Loader) (f : FieldMeta × Ty)
    (keys : List String) :
    (buildEnvKey c f.1 keys).1 ∈ fieldKeys c f keys := by
  rw [fieldKeys]
  exact List.mem_cons_self _ _

/-- `fieldKeys` of a field whose dereferenced type is a struct. -/
theorem fieldKeys_struc (c : Loader) (f : FieldMeta × Ty)
    {gs : List (FieldMeta × Ty)} (hd : getDirectType f.2 = .struc gs)
    (keys : List String) :
    fieldKeys c f keys =
      (buildEnvKey c f.1 keys).1 ::
        structKeys c gs (buildEnvKey c f.1 keys).2 := by
  rw [fieldKeys]
  congr 1
  split
  · rename_i gs2 heq
    rw [hd] at heq
    cases heq
    rfl
  · rename_i hne
    exact absurd hd (by intro hcon; exact hne gs (by rw [hcon]))

/-- Unfolding of `setStructVal` at a direct struct field (the `vf.Addr()`
branch). -/
theorem setStructVal_struc (c : Loader) (env : Env) (gs : List (FieldMeta × Ty))
    (vs : List Val) (keys : List String) :
    setStructVal c env (.struc gs) (.struc vs) keys =
      match recursiveLoadToStruct c env (.ptr (.struc gs))
          (.ptr (some (.struc vs))) keys with
      | .ok found v2 => .ok found (unwrapAddr v2 (.struc vs))
      | .err e v2 => .err e (unwrapAddr v2 (.struc vs))
      | .panicked p v2 => .panicked p (unwrapAddr v2 (.struc vs)) := by
  rw [setStructVal]
  intro t h1
  simp at h1

/-- Unfolding of `setStructVal` at a non-nil pointer field (also the
`vf.Addr()` branch). -/
theorem setStructVal_ptr_some (c : Loader) (env : Env) (elemTy : Ty) (w : Val)
    (keys : List String) :
    setStructVal c env (.ptr elemTy) (.ptr (some w)) keys =
      match recursiveLoadToStruct c env (.ptr (.ptr elemTy))
          (.ptr (some (.ptr (some w)))) keys with
      | .ok found v2 => .ok found (unwrapAddr v2 (.ptr (some w)))
      | .err e v2 => .err e (unwrapAddr v2 (.ptr (some w)))
      | .panicked p v2 => .panicked p (unwrapAddr v2 (.ptr (some w))) := by
  rw [setStructVal]
  intro t h1 h2
  simp at h2

/-- `isStruct` characterisation. -/
theorem isStruct_iff {t : Ty} : isStruct t = true ↔ ∃ gs, t = .struc gs := by
  cases t <;> simp [isStruct]

/-- Main invariant for untouched subtrees: when every key derivable at or
beneath a benign field is absent from the environment, loading the field
from its zero value finds nothing, changes nothing and reports no error
(and likewise for a whole field list). -/
theorem absent_main (c : Loader) (env : Env) :
    ∀ n : Nat,
      (∀ (tf : FieldMeta) (ty : Ty) (keys : List String),
          sizeOf ty ≤ n →
          (∀ k ∈ fieldKeys c (tf, ty) keys, env k = none) →
          benignField (tf, ty) = true →
          loadToField c env tf ty (zeroVal ty) keys = .ok false (zeroVal ty)) ∧
      (∀ (gs : List (FieldMeta × Ty)) (keys : List String),
          sizeOf gs ≤ n →
          (∀ f ∈ gs,
            (∀ k ∈ fieldKeys c f keys, env k = none) ∧ benignField f = true) →
          loopFieldsList c env gs (zeroVals gs) keys =
            .ok false (zeroVals gs)) := by
  intro n
  induction n with
  | zero =>
    constructor
    · intro tf ty keys hsz _ _
      exact absurd hsz (by have := ty_sizeOf_pos ty; omega)
    · intro gs keys hsz _
      exact absurd hsz (by have := fields_sizeOf_pos gs; omega)
  | succ n ih =>
    obtain ⟨ih1, ih2⟩ := ih
    constructor
    · intro tf ty keys hsz habs hben
      by_cases hset : tf.canSet = false
      · simp [loadToField, hset]
      · have hsetT : tf.canSet = true := by
          cases hc : tf.canSet
          · exact absurd hc hset
          · rfl
        have hbenTy : benignTy ty = true := by
          rw [benignField] at hben
          rw [hsetT] at hben
          simpa using hben
        have hk0 : env (buildEnvKey c tf keys).1 = none :=
          habs _ (own_key_mem_fieldKeys c (tf, ty) keys)
        -- the recursion into a struct-shaped subtree finds nothing
        have hsub : ∀ gs : List (FieldMeta × Ty), getDirectType ty = .struc gs →
            loopFieldsList c env gs (zeroVals gs) (buildEnvKey c tf keys).2 =
              .ok false (zeroVals gs) := by
          intro gs hd
          have hmem : ∀ f ∈ gs,
              (∀ k ∈ fieldKeys c f (buildEnvKey c tf keys).2, env k = none) ∧
                benignField f = true := by
            rcases benignTy_struc_cases hbenTy hd with ⟨_, hbf⟩ | ⟨_, hbf⟩ <;>
            · intro f hf
              refine ⟨fun k hk => habs k ?_, benignFields_mem hbf hf⟩
              rw [fieldKeys_struc c (tf, ty) hd keys]
              exact List.mem_cons.mpr (Or.inr (mem_structKeys hf hk))
          have hszgs : sizeOf gs ≤ n := by
            rcases benignTy_struc_cases hbenTy hd with ⟨hty, _⟩ | ⟨hty, _⟩ <;>
            · subst hty
              simp at hsz
              omega
          exact ih2 gs _ hszgs hmem
        have hcore :
            loadToFieldCore c env tf ty (zeroVal ty) keys =
              .ok false (zeroVal ty) := by
          rw [loadToFieldCore]
          simp only [hk0]
          by_cases hstru : isStruct (getDirectType ty) = true
          · obtain ⟨gs, hd⟩ := isStruct_iff.mp hstru
            rw [if_pos hstru]
            have hloop :
                loopOverFields c env (getDirectType (Ty.ptr (Ty.struc gs)))
                  (.struc (zeroVals gs)) (buildEnvKey c tf keys).2 =
                  .ok false (.struc (zeroVals gs)) := by
              have hgd : getDirectType (Ty.ptr (Ty.struc gs)) = Ty.struc gs := rfl
              rw [hgd, loopOverFields]
              rw [hsub gs hd]
            have hrec :
                recursiveLoadToStruct c env (.ptr (.struc gs))
                  (.ptr (some (.struc (zeroVals gs)))) (buildEnvKey c tf keys).2 =
                  .ok false (.ptr (some (.struc (zeroVals gs)))) := by
              rw [recursiveLoadToStruct]
              simp only [hloop]
              simp
            rcases benignTy_struc_cases hbenTy hd with ⟨hty, _⟩ | ⟨hty, _⟩
            · subst hty
              have hz : zeroVal (Ty.struc gs) = .struc (zeroVals gs) := by
                simp [zeroVal]
              rw [hz]
              rw [setStructVal_struc]
              simp only [hrec]
              simp [unwrapAddr]
            · subst hty
              have hz : zeroVal (Ty.ptr (Ty.struc gs)) = Val.ptr none := by
                simp [zeroVal]
              rw [hz]
              rw [setStructVal]
              have hz2 : zeroVal (Ty.struc gs) = .struc (zeroVals gs) := by
                simp [zeroVal]
              simp only [hz2, hrec]
              simp
          · rw [if_neg hstru]
        simp only [loadToField, hsetT]
        simp only [hcore]
        simp
    · intro gs keys hsz hall
      cases gs with
      | nil => simp [loopFieldsList, zeroVals]
      | cons f fs =>
        obtain ⟨fm, ft⟩ := f
        have hz : zeroVals ((fm, ft) :: fs) = zeroVal ft :: zeroVals fs := by
          simp [zeroVals]
        rw [hz]
        have hf1 := hall (fm, ft) (List.mem_cons_self _ _)
        have hszf : sizeOf ft ≤ n := by
          simp at hsz
          omega
        have hload : loadToField c env fm ft (zeroVal ft) keys =
            .ok false (zeroVal ft) := ih1 fm ft keys hszf hf1.1 hf1.2
        have hszfs : sizeOf fs ≤ n := by
          simp at hsz
          omega
        have hrest : loopFieldsList c env fs (zeroVals fs) keys =
            .ok false (zeroVals fs) :=
          ih2 fs keys hszfs (fun g hg => hall g (List.mem_cons_of_mem _ hg))
        rw [loopFieldsList]
        simp only [hload, hrest]
        simp

mutual

/-- `SinglePath c env keys m ty v` describes the scenario in which exactly
one leaf key derivable at or beneath the field `(m, ty)` (under parent
segment stack `keys`) is present in the environment, its textual value
coerces successfully, and every other derivable key beneath the field is
absent, the traversed shapes being benign.  The value index `v` is the
expected field value after the bind: the zero value everywhere except along
the path, whose leaf holds the coerced value. -/
inductive SinglePath (c : Loader) (env : Env) :
    List String → FieldMeta → Ty → Val → Prop where
  | leaf : ∀ (keys : List String) (m : FieldMeta) (ty : Ty) (s : String)
      (v : Val),
      m.canSet = true →
      env (buildEnvKey c m keys).1 = some s →
      setFieldVal c ty (zeroVal ty) s = .ok true v →
      SinglePath c env keys m ty v
  | intoStruct : ∀ (keys : List String) (m : FieldMeta)
      (gs : List (FieldMeta × Ty)) (vs : List Val),
      m.canSet = true →
      env (buildEnvKey c m keys).1 = none →
      StructPath c env (buildEnvKey c m keys).2 gs vs →
      SinglePath c env keys m (.struc gs) (.struc vs)
  | intoPtrStruct : ∀ (keys : List String) (m : FieldMeta)
      (gs : List (FieldMeta × Ty)) (vs : List Val),
      m.canSet = true →
      env (buildEnvKey c m keys).1 = none →
      StructPath c env (buildEnvKey c m keys).2 gs vs →
      SinglePath c env keys m (.ptr (.struc gs)) (.ptr (some (.struc vs)))

/-- `StructPath c env keys gs vs`: among the fields `gs`, exactly one
(somewhere) carries the single present leaf; every other field has all its
derivable keys absent and is benign.  `vs` is the expected value list after
the bind. -/
inductive StructPath (c : Loader) (env : Env) :
    List String → List (FieldMeta × Ty) → List Val → Prop where
  | here : ∀ (keys : List String) (f : FieldMeta × Ty)
      (fs : List (FieldMeta × Ty)) (v : Val),
      SinglePath c env keys f.1 f.2 v →
      (∀ g ∈ fs,
        (∀ k ∈ fieldKeys c g keys, env k = none) ∧ benignField g = true) →
      StructPath c env keys (f :: fs) (v :: zeroVals fs)
  | there : ∀ (keys : List String) (f : FieldMeta × Ty)
      (fs : List (FieldMeta × Ty)) (vs : List Val),
      (∀ k ∈ fieldKeys c f keys, env k = none) →
      benignField f = true →
      StructPath c env keys fs vs →
      StructPath c env keys (f :: fs) (zeroVal f.2 :: vs)

end

/-- Soundness of the single-present-leaf description: the walk computes
exactly the value predicted by `SinglePath`, reporting found and no
error. -/
theorem singlePath_sound (c : Loader) (env : Env) (keys : List String)
    (m : FieldMeta) (ty : Ty) (v : Val) (h : SinglePath c env keys m ty v) :
    loadToField c env m ty (zeroVal ty) keys = .ok true v := by
  refine @SinglePath.rec c env
    (fun keys m ty v _ =>
      loadToField c env m ty (zeroVal ty) keys = .ok true v)
    (fun keys gs vs _ =>
      loopFieldsList c env gs (zeroVals gs) keys = .ok true vs)
    ?_ ?_ ?_ ?_ ?_ keys m ty v h
  · -- leaf
    intro keys m ty s v hcs henv hset
    rw [loadToField]
    simp only [hcs]
    rw [loadToFieldCore]
    simp only [henv, hset]
    simp
  · -- intoStruct
    intro keys m gs vs hcs henv _ ihs
    have hz : zeroVal (Ty.struc gs) = Val.struc (zeroVals gs) := by
      simp [zeroVal]
    have hloop :
        loopOverFields c env (getDirectType (Ty.ptr (Ty.struc gs)))
          (.struc (zeroVals gs)) (buildEnvKey c m keys).2 =
          .ok true (.struc vs) := by
      have hgd : getDirectType (Ty.ptr (Ty.struc gs)) = Ty.struc gs := rfl
      rw [hgd, loopOverFields]
      rw [ihs]
    have hrec :
        recursiveLoadToStruct c env (.ptr (.struc gs))
          (.ptr (some (.struc (zeroVals gs)))) (buildEnvKey c m keys).2 =
          .ok true (.ptr (some (.struc vs))) := by
      rw [recursiveLoadToStruct]
      simp only [hloop]
      simp
    rw [loadToField]
    simp only [hcs]
    rw [loadToFieldCore]
    simp only [henv, hz]
    have hstru : isStruct (getDirectType (Ty.struc gs)) = true := rfl
    rw [if_pos hstru]
    rw [setStructVal_struc]
    simp only [hrec]
    simp [unwrapAddr]
  · -- intoPtrStruct
    intro keys m gs vs hcs henv _ ihs
    have hz : zeroVal (Ty.ptr (Ty.struc gs)) = Val.ptr none := by
      simp [zeroVal]
    have hz2 : zeroVal (Ty.struc gs) = Val.struc (zeroVals gs) := by
      simp [zeroVal]
    have hloop :
        loopOverFields c env (getDirectType (Ty.ptr (Ty.struc gs)))
          (.struc (zeroVals gs)) (buildEnvKey c m keys).2 =
          .ok true (.struc vs) := by
      have hgd : getDirectType (Ty.ptr (Ty.struc gs)) = Ty.struc gs := rfl
      rw [hgd, loopOverFields]
      rw [ihs]
    have hrec :
        recursiveLoadToStruct c env (.ptr (.struc gs))
          (.ptr (some (.struc (zeroVals gs)))) (buildEnvKey c m keys).2 =
          .ok true (.ptr (some (.struc vs))) := by
      rw [recursiveLoadToStruct]
      simp only [hloop]
      simp
    rw [loadToField]
    simp only [hcs]
    rw [loadToFieldCore]
    simp only [henv, hz]
    have hstru : isStruct (getDirectType (Ty.ptr (Ty.struc gs))) = true := rfl
    rw [if_pos hstru]
    rw [setStructVal]
    simp only [hz2, hrec]
    simp
  · -- here
    intro keys f fs v _ hrest ih1
    have hz : zeroVals (f :: fs) = zeroVal f.2 :: zeroVals fs := by
      obtain ⟨fm, ft⟩ := f
      simp [zeroVals]
    rw [hz, loopFieldsList]
    simp only [ih1]
    have habs :
        loopFieldsList c env fs (zeroVals fs) keys = .ok false (zeroVals fs) :=
      (absent_main c env (sizeOf fs)).2 fs keys le_rfl hrest
    simp only [habs]
    simp
  · -- there
    intro keys f fs vs habs hben _ ihs
    have hz : zeroVals (f :: fs) = zeroVal f.2 :: zeroVals fs := by
      obtain ⟨fm, ft⟩ := f
      simp [zeroVals]
    rw [hz, loopFieldsList]
    have hload : loadToField c env f.1 f.2 (zeroVal f.2) keys =
        .ok false (zeroVal f.2) :=
      (absent_main c env (sizeOf f.2)).1 f.1 f.2 keys le_rfl habs hben
    simp only [hload, ihs]
    simp

/-- `loopOverFields` on a pointer value: `v.NumField()` panics. -/
theorem loopOverFields_ptr (c : Loader) (env : Env) (t : Ty)
    (keys : List String) (w : Option Val) :
    loopOverFields c env t (.ptr w) keys =
      .panicked numFieldPanicMsg (.ptr w) := by
  rw [loopOverFields]
  intro vs hcon
  cases hcon

/-- `loadToField` never lets a panic escape: its `recover` guard converts
any panicked body into an error. -/
theorem loadToField_not_panicked (c : Loader) (env : Env) (m : FieldMeta)
    (ty : Ty) (vf : Val) (keys : List String) (p : String) (v2 : Val) :
    loadToField c env m ty vf keys ≠ .panicked p v2 := by
  rw [loadToField]
  by_cases h : m.canSet = false
  · simp [h]
  · simp only [h]
    cases hc : loadToFieldCore c env m ty vf keys <;> simp

/-- First failure wins: if a prefix of the field list processes without
error and the next field fails, the whole loop returns exactly that field's
error, the prefix keeps its processed values, and the fields after the
failing one keep their original (untouched) values. -/
theorem loopFieldsList_first_err (c : Loader) (env : Env) (keys : List String) :
    ∀ (fs1 : List (FieldMeta × Ty)) (vs1 : List Val) (b : Bool)
      (rs1 : List Val) (f : FieldMeta × Ty) (v : Val)
      (fs2 : List (FieldMeta × Ty)) (vs2 : List Val) (e : Err) (v2 : Val),
      fs1.length = vs1.length →
      loopFieldsList c env fs1 vs1 keys = .ok b rs1 →
      loadToField c env f.1 f.2 v keys = .err e v2 →
      loopFieldsList c env (fs1 ++ f :: fs2) (vs1 ++ v :: vs2) keys =
        .err e (rs1 ++ v2 :: vs2) := by
  intro fs1
  induction fs1 with
  | nil =>
    intro vs1 b rs1 f v fs2 vs2 e v2 hlen hok hbad
    have hvs1 : vs1 = [] := by
      cases vs1 with
      | nil => rfl
      | cons u us => simp at hlen
    subst hvs1
    have hrs1 : rs1 = [] := by
      rw [loopFieldsList] at hok
      cases hok
      rfl
    subst hrs1
    simp only [List.nil_append]
    rw [loopFieldsList]
    simp only [hbad]
  | cons g gs ihg =>
    intro vs1 b rs1 f v fs2 vs2 e v2 hlen hok hbad
    cases vs1 with
    | nil => simp at hlen
    | cons u us =>
      rw [loopFieldsList] at hok
      cases hg : loadToField c env g.1 g.2 u keys with
      | err e3 v3 => rw [hg] at hok; cases hok
      | panicked p3 v3 => rw [hg] at hok; cases hok
      | ok bg ug =>
        rw [hg] at hok
        cases hr : loopFieldsList c env gs us keys with
        | err e3 v3 => rw [hr] at hok; cases hok
        | panicked p3 v3 => rw [hr] at hok; cases hok
        | ok b2 rest2 =>
          rw [hr] at hok
          cases hok
          have hlen2 : gs.length = us.length := by simpa using hlen
          have hih := ihg us b2 rest2 f v fs2 vs2 e v2 hlen2 hr hbad
          simp only [List.cons_append]
          rw [loopFieldsList]
          simp only [hg, hih]

/-- A settable, non-nil pointer-to-struct field always trips the walker:
the recursion passes a pointer-to-pointer down, the fully dereferenced type
is the struct but the once-dereferenced value is still a pointer, so the
field enumeration panics and the guard converts the panic into an error,
whatever the environment holds. -/
theorem loadToField_nonnil_ptr_struc (c : Loader) (env : Env) (m : FieldMeta)
    (hs : List (FieldMeta × Ty)) (ws : List Val) (keys : List String)
    (hcs : m.canSet = true) :
    loadToField c env m (.ptr (.struc hs)) (.ptr (some (.struc ws))) keys =
      .err (.panicAtStruct (typeName (.ptr (.ptr (.struc hs))))
          (String.intercalate c.sep (buildEnvKey c m keys).2)
          numFieldPanicMsg)
        (.ptr (some (.struc ws))) := by
  have hloop :
      loopOverFields c env (getDirectType (Ty.ptr (Ty.ptr (Ty.struc hs))))
        (.ptr (some (.struc ws))) (buildEnvKey c m keys).2 =
        .panicked numFieldPanicMsg (.ptr (some (.struc ws))) :=
    loopOverFields_ptr c env _ _ _
  have hrec :
      recursiveLoadToStruct c env (.ptr (.ptr (.struc hs)))
        (.ptr (some (.ptr (some (.struc ws))))) (buildEnvKey c m keys).2 =
        .err (.panicAtStruct (typeName (.ptr (.ptr (.struc hs))))
            (String.intercalate c.sep (buildEnvKey c m keys).2)
            numFieldPanicMsg)
          (.ptr (some (.ptr (some (.struc ws))))) := by
    rw [recursiveLoadToStruct]
    simp only [hloop]
    simp
  have hss :
      setStructVal c env (.ptr (.struc hs)) (.ptr (some (.struc ws)))
        (buildEnvKey c m keys).2 =
        .err (.panicAtStruct (typeName (.ptr (.ptr (.struc hs))))
            (String.intercalate c.sep (buildEnvKey c m keys).2)
            numFieldPanicMsg)
          (.ptr (some (.struc ws))) := by
    rw [setStructVal_ptr_some]
    simp only [hrec]
    simp [unwrapAddr]
  rw [loadToField]
  simp only [hcs]
  rw [loadToFieldCore]
  cases henv : env (buildEnvKey c m keys).1 with
  | none =>
    simp only [henv]
    have hstru : isStruct (getDirectType (Ty.ptr (Ty.struc hs))) = true := rfl
    rw [if_pos hstru]
    rw [hss]
    simp
  | some s =>
    simp only [henv]
    have hsf : setFieldVal c (.ptr (.struc hs)) (.ptr (some (.struc ws))) s =
        .ok false (.ptr (some (.struc ws))) := by
      rw [setFieldVal]
      · simp [getDirectVal]
      · intro t h1 h2
        simp at h2
    simp only [hsf]
    have hstru : isStruct (getDirectType (Ty.ptr (Ty.struc hs))) = true := rfl
    simp only [Bool.false_eq_true, if_false]
    rw [if_pos hstru]
    rw [hss]
    simp

/-- Root-level version: a record containing (at any position) a settable,
non-nil pointer-to-struct field makes the whole walk fail, whatever the
environment holds. -/
theorem recursiveLoad_err_of_nonnil_ptr (c : Loader) (env : Env)
    (keys : List String) :
    ∀ (fs1 : List (FieldMeta × Ty)) (vs1 : List Val) (m : FieldMeta)
      (hs : List (FieldMeta × Ty)) (ws : List Val)
      (fs2 : List (FieldMeta × Ty)) (vs2 : List Val),
      fs1.length = vs1.length →
      m.canSet = true →
      ∃ (e : Err) (rs : List Val),
        loopFieldsList c env (fs1 ++ (m, .ptr (.struc hs)) :: fs2)
          (vs1 ++ (.ptr (some (.struc ws))) :: vs2) keys = .err e rs := by
  intro fs1
  induction fs1 with
  | nil =>
    intro vs1 m hs ws fs2 vs2 hlen hcs
    have hvs1 : vs1 = [] := by
      cases vs1 with
      | nil => rfl
      | cons u us => simp at hlen
    subst hvs1
    simp only [List.nil_append]
    rw [loopFieldsList]
    rw [loadToField_nonnil_ptr_struc c env m hs ws keys hcs]
    exact ⟨_, _, rfl⟩
  | cons g gs ihg =>
    intro vs1 m hs ws fs2 vs2 hlen hcs
    cases vs1 with
    | nil => simp at hlen
    | cons u us =>
      have hlen2 : gs.length = us.length := by simpa using hlen
      simp only [List.cons_append]
      rw [loopFieldsList]
      cases hg : loadToField c env g.1 g.2 u keys with
      | err e3 v3 => exact ⟨_, _, rfl⟩
      | panicked p3 v3 =>
        exact absurd hg (loadToField_not_panicked c env g.1 g.2 u keys p3 v3)
      | ok bg ug =>
        obtain ⟨e, rs, hih⟩ := ihg us m hs ws fs2 vs2 hlen2 hcs
        rw [hih]
        exact ⟨_, _, rfl⟩

/-- The `Load` method of `Loader` (`c.Load(s)` =
`c.recursiveLoadToStruct(s, nil)`): the root call starts with an empty
segment stack.  Go's `Load` returns only the error and drops the root
`found` flag; the model keeps the full outcome so that properties about the
final record state can be stated. -/
def Load (c : Loader) (env : Env) (sTy : Ty) (sVal : Val) : Res Val :=
  recursiveLoadToStruct c env sTy sVal []

/-! ## Concrete field descriptors used by witnesses and counterexamples -/

/-- `Numbers []int` — no tags. -/
def numbersMeta : FieldMeta :=
  { name := "Numbers", envTag := none, aliasTag := none, anonymous := false,
    canSet := true }

/-- `Host string \`env:"HOST"\``. -/
def hostTagMeta : FieldMeta :=
  { name := "Host", envTag := some "HOST", aliasTag := none,
    anonymous := false, canSet := true }

/-- `Port int \`env:"PORT"\``. -/
def portTagMeta : FieldMeta :=
  { name := "Port", envTag := some "PORT", aliasTag := none,
    anonymous := false, canSet := true }

/-- `Debug bool \`env:"DEBUG"\``. -/
def debugTagMeta : FieldMeta :=
  { name := "Debug", envTag := some "DEBUG", aliasTag := none,
    anonymous := false, canSet := true }

/-- `Server ...` — no tags. -/
def serverMeta : FieldMeta :=
  { name := "Server", envTag := none, aliasTag := none, anonymous := false,
    canSet := true }

/-- `Host string` — no tags. -/
def hostMeta : FieldMeta :=
  { name := "Host", envTag := none, aliasTag := none, anonymous := false,
    canSet := true }

/-- A field `A int64 \`env:"A"\``. -/
def aTagMeta : FieldMeta :=
  { name := "A", envTag := some "A", aliasTag := none, anonymous := false,
    canSet := true }

/-- A field `B int64 \`env:"B"\``. -/
def bTagMeta : FieldMeta :=
  { name := "B", envTag := some "B", aliasTag := none, anonymous := false,
    canSet := true }

/-- A field `Bad **struct` — no tags. -/
def badMeta : FieldMeta :=
  { name := "Bad", envTag := none, aliasTag := none, anonymous := false,
    canSet := true }

/-! ## Claim theorems -/

/-- C1 counterexample: the source checks `tf.Anonymous` before looking the
`env` tag up, so an anonymous field carrying the exact-name annotation
`FOO` still derives the joined parent key (`"A"` here), not the annotation
string — refuting the claim's "whether or not the field is also
anonymous/embedded". -/
theorem C1_counterexample :
    (buildEnvKey (New [])
      { name := "Extra", envTag := some "FOO", aliasTag := none,
        anonymous := true, canSet := true } ["A"]).1 = "A" ∧
    ("A" : String) ≠ "FOO" := by
  constructor
  · rfl
  · decide

/-- C1 (amended): for a NON-anonymous field the precedence is as claimed:
an exact-name (`env`) annotation makes the lookup key the annotation string
verbatim, unaffected by alias, naming strategy, prefix, separator and
parent segments; with only an alias the key is prefix+segments+alias joined
by `joinKeys`; with neither it is prefix+segments+strategy(fieldName).
An anonymous field ignores its annotations entirely (the anonymous branch
short-circuits first). -/
theorem C1_amended_name_precedence (c : Loader) (tf : FieldMeta)
    (keys : List String) (hanon : tf.anonymous = false) :
    (∀ tag, tf.envTag = some tag → (buildEnvKey c tf keys).1 = tag) ∧
    (∀ a, tf.envTag = none → tf.aliasTag = some a →
      (buildEnvKey c tf keys).1 = joinKeys c (keys ++ [a])) ∧
    (∀ tr, tf.envTag = none → tf.aliasTag = none →
      c.fieldNameTransformer = some tr →
      (buildEnvKey c tf keys).1 = joinKeys c (keys ++ [tr tf.name])) := by
  refine ⟨?_, ?_, ?_⟩
  · intro tag htag
    simp [buildEnvKey, getFieldName, hanon, htag]
  · intro a henv halias
    simp [buildEnvKey, getFieldName, hanon, henv, halias]
  · intro tr henv halias htr
    simp [buildEnvKey, getFieldName, hanon, henv, halias, htr]

theorem C1_amended_name_precedence_witness :
    (buildEnvKey (New [])
      { name := "Port", envTag := some "FOO", aliasTag := some "p",
        anonymous := false, canSet := true } ["A"]).1 = "FOO" :=
  (C1_amended_name_precedence (New []) _ ["A"] rfl).1 "FOO" rfl

/-- C3 counterexample: `buildEnvKey` appends the field name to the segment
stack before checking exactness, so a (non-anonymous) field with exact name
`FOO` returns segment stack `["FOO"]`, not the unchanged parent stack
`[]`. -/
theorem C3_counterexample :
    (buildEnvKey (New [])
      { name := "Port", envTag := some "FOO", aliasTag := none,
        anonymous := false, canSet := true } []).2 = ["FOO"] ∧
    (["FOO"] : List String) ≠ [] := by
  constructor
  · rfl
  · decide

/-- C3 (amended): for a non-anonymous field with an exact-name annotation,
key derivation returns the key verbatim but the segment stack is the parent
stack WITH the exact name appended — descendants of an exact-name
record-shaped field therefore do see the annotation as a naming-context
segment.  (Only anonymous fields keep the parent stack unchanged.) -/
theorem C3_amended_segments (c : Loader) (tf : FieldMeta)
    (keys : List String) (tag : String) (hanon : tf.anonymous = false)
    (htag : tf.envTag = some tag) :
    buildEnvKey c tf keys = (tag, keys ++ [tag]) := by
  simp [buildEnvKey, getFieldName, hanon, htag]

theorem C3_amended_segments_witness :
    buildEnvKey (New [])
      { name := "Port", envTag := some "FOO", aliasTag := none,
        anonymous := false, canSet := true } ["A"] = ("FOO", ["A", "FOO"]) :=
  C3_amended_segments (New []) _ ["A"] "FOO" rfl rfl

/-- C6: an anonymous/embedded field contributes no segment: its own lookup
key is the joined parent stack (prefix included by `joinKeys`), the stack
passed on is the parent stack unchanged, and hence any member of the
embedded record derives exactly the same key as the same member declared
directly on the parent. -/
theorem C6_anonymous_no_segment (c : Loader) (tf : FieldMeta)
    (keys : List String) (hanon : tf.anonymous = true) :
    buildEnvKey c tf keys = (joinKeys c keys, keys) ∧
    (∀ tf2 : FieldMeta,
      buildEnvKey c tf2 (buildEnvKey c tf keys).2 = buildEnvKey c tf2 keys) := by
  have h1 : buildEnvKey c tf keys = (joinKeys c keys, keys) := by
    simp [buildEnvKey, hanon]
  exact ⟨h1, fun tf2 => by rw [h1]⟩

theorem C6_anonymous_no_segment_witness :
    buildEnvKey (New [])
      { name := "Base", envTag := none, aliasTag := none,
        anonymous := true, canSet := true } ["A"] = ("A", ["A"]) := by
  have h := (C6_anonymous_no_segment (New [])
    { name := "Base", envTag := none, aliasTag := none,
      anonymous := true, canSet := true } ["A"] rfl).1
  rw [h]
  rfl

/-- C2 counterexample: `setIntVal` parses with `ParseInt(raw, 10, 64)` and
assigns with `reflect.Value.SetInt`, which truncates instead of
range-checking the field's bit width: binding `"300"` into an `int8` field
succeeds and stores `44` (`300 mod 256`), with no error and hence no error
carrying the key — refuting the claimed per-width range check. -/
theorem C2_counterexample :
    loadToField (New [])
      (fun k => if k = "PORT" then some "300" else none)
      { name := "Port", envTag := some "PORT", aliasTag := none,
        anonymous := false, canSet := true } (.int 8) (.int 8 0) [] =
      .ok true (.int 8 44) := by
  simp [loadToField, loadToFieldCore, setFieldVal, buildEnvKey, getFieldName,
    getDirectVal, setDirect, goParseInt64, digitsToNat, digitsToNat.go,
    wrapInt, New]

/-- C2 (amended): a present value for an integer field is parsed as a
base-10 integer range-checked against 64 bits, not the field's declared
width: non-numeric text (or text outside the 64-bit range) aborts the bind
with an error wrapping the offending lookup key, while any value inside the
64-bit range — including values out of range for a narrower field — is
truncated to the field's width modulo 2^w and assigned without error; the
unsigned case behaves the same via `ParseUint`. -/
theorem C2_amended_int_parse (c : Loader) (env : Env) (m : FieldMeta)
    (w : Nat) (keys : List String) (s : String) (hcs : m.canSet = true)
    (henv : env (buildEnvKey c m keys).1 = some s) :
    (goParseInt64 s = none →
      loadToField c env m (.int w) (.int w 0) keys =
        .err (.cannotSetField (buildEnvKey c m keys).1
          (.parseErr "ParseInt" s)) (.int w 0)) ∧
    (∀ i, goParseInt64 s = some i →
      loadToField c env m (.int w) (.int w 0) keys =
        .ok true (.int w (wrapInt w i))) ∧
    (goParseUint64 s = none →
      loadToField c env m (.uint w) (.uint w 0) keys =
        .err (.cannotSetField (buildEnvKey c m keys).1
          (.parseErr "ParseUint" s)) (.uint w 0)) ∧
    (∀ u, goParseUint64 s = some u →
      loadToField c env m (.uint w) (.uint w 0) keys =
        .ok true (.uint w (wrapUint w u))) := by
  refine ⟨?_, ?_, ?_, ?_⟩
  · intro hparse
    rw [loadToField]
    simp only [hcs]
    rw [loadToFieldCore]
    simp only [henv]
    rw [setFieldVal]
    · simp [getDirectVal, hparse]
    · intro t h1 h2
      simp at h1
  · intro i hparse
    rw [loadToField]
    simp only [hcs]
    rw [loadToFieldCore]
    simp only [henv]
    rw [setFieldVal]
    · simp [getDirectVal, hparse, setDirect]
    · intro t h1 h2
      simp at h1
  · intro hparse
    rw [loadToField]
    simp only [hcs]
    rw [loadToFieldCore]
    simp only [henv]
    rw [setFieldVal]
    · simp [getDirectVal, hparse]
    · intro t h1 h2
      simp at h1
  · intro u hparse
    rw [loadToField]
    simp only [hcs]
    rw [loadToFieldCore]
    simp only [henv]
    rw [setFieldVal]
    · simp [getDirectVal, hparse, setDirect]
    · intro t h1 h2
      simp at h1

theorem C2_amended_int_parse_witness :
    loadToField (New [])
      (fun k => if k = "N" then some "70000" else none)
      { name := "N", envTag := some "N", aliasTag := none,
        anonymous := false, canSet := true } (.int 16) (.int 16 0) [] =
      .ok true (.int 16 4464) := by
  have h := (C2_amended_int_parse (New [])
    (fun k => if k = "N" then some "70000" else none)
    { name := "N", envTag := some "N", aliasTag := none,
      anonymous := false, canSet := true } 16 [] "70000" rfl
    (by decide)).2.1 70000 (by decide)
  have hw : wrapInt 16 70000 = 4464 := by decide
  rw [hw] at h
  exact h

/-- C10 counterexample: the zero-parts branch of `setSliceValue` is
reachable — with the array separator configured to the empty string,
`strings.Split("", "")` yields zero parts, and a slice field bound from the
empty string is left unset (nil) while still reported as set. -/
theorem C10_counterexample :
    goSplit "" (New [WithArraySeparator ""]).arraySep = [] ∧
    setFieldVal (New [WithArraySeparator ""]) (.slice .str) (.slice none) "" =
      .ok true (.slice none) := by
  constructor
  · rfl
  · simp [setFieldVal, getDirectVal, getDirectType, goSplit, New,
      WithArraySeparator]

/-- C10 (amended): under any NON-empty array separator (such as the default
`","`), splitting the empty string produces exactly one empty part, so a
slice field whose key is present with the empty value is never left unset:
a one-element slice is built by coercing `""` into the element type —
`[""]` for string elements, and a slice-element coercion error for integer
elements. -/
theorem C10_amended_empty_value (c : Loader) (w : Nat)
    (hsep : c.arraySep ≠ "") :
    goSplit "" c.arraySep = [""] ∧
    setFieldVal c (.slice .str) (.slice none) "" =
      .ok true (.slice (some [.str ""])) ∧
    setFieldVal c (.slice (.int w)) (.slice none) "" =
      .err (.cannotSetSlice (.parseErr "ParseInt" "")) (.slice none) := by
  have hd : c.arraySep.data ≠ [] := by
    intro h
    exact hsep (String.ext h)
  have hsplit : goSplit "" c.arraySep = [""] := by
    rw [goSplit, if_neg hd]
    rfl
  refine ⟨hsplit, ?_, ?_⟩
  · rw [setFieldVal]
    · have hzero : zeroVal Ty.str = Val.str "" := by simp [zeroVal]
      have hparts : setSliceParts c .str [""] = .ok true [.str ""] := by
        rw [setSliceParts]
        rw [setFieldVal]
        · simp [hzero, getDirectVal, setDirect]
          rw [setSliceParts]
        · intro t h1 h2
          simp at h1
      simp [getDirectVal, getDirectType, hsplit, hparts, setDirect]
    · intro t h1 h2
      simp at h1
  · rw [setFieldVal]
    · have hzero : zeroVal (Ty.int w) = Val.int w 0 := by simp [zeroVal]
      have hparts : setSliceParts c (.int w) [""] =
          .err (.cannotSetSlice (.parseErr "ParseInt" "")) [] := by
        rw [setSliceParts]
        rw [setFieldVal]
        · simp [hzero, getDirectVal, goParseInt64]
        · intro t h1 h2
          simp at h1
      simp [getDirectVal, getDirectType, hsplit, hparts]
    · intro t h1 h2
      simp at h1

theorem C10_amended_empty_value_witness :
    setFieldVal (New []) (.slice .str) (.slice none) "" =
      .ok true (.slice (some [.str ""])) :=
  (C10_amended_empty_value (New []) 8 (by decide)).2.1

/-- C7: binding an integer-sequence field from `"1,2,3,4"` under the default
array separator yields the ordered sequence `[1,2,3,4]`, and a loader built
with `WithArraySeparator ";"` binding `"1;2;3;4"` yields the same sequence —
the result depends only on the separated element texts. -/
theorem C7_array_separator_roundtrip :
    Load (New []) (fun k => if k = "NUMBERS" then some "1,2,3,4" else none)
      (.ptr (.struc [(numbersMeta, .slice (.int 64))]))
      (.ptr (some (.struc [.slice none]))) =
      .ok true (.ptr (some (.struc [.slice (some
        [.int 64 1, .int 64 2, .int 64 3, .int 64 4])]))) ∧
    Load (New [WithArraySeparator ";"])
      (fun k => if k = "NUMBERS" then some "1;2;3;4" else none)
      (.ptr (.struc [(numbersMeta, .slice (.int 64))]))
      (.ptr (some (.struc [.slice none]))) =
      .ok true (.ptr (some (.struc [.slice (some
        [.int 64 1, .int 64 2, .int 64 3, .int 64 4])]))) := by
  constructor
  · simp [Load, recursiveLoadToStruct, loopOverFields, loopFieldsList,
      loadToField, loadToFieldCore, setFieldVal, setSliceParts, buildEnvKey,
      getFieldName, joinKeys, getDirectType, getDirectVal, setDirect, isStruct,
      zeroVal, UperCaseTransformer, uperCaseAux, canToUpper, goSplit,
      goSplitAux, List.isSuffixOf, goParseInt64, digitsToNat, digitsToNat.go,
      wrapInt, New, DefaultSep, DefaultArrSep, numbersMeta,
      show ("_".intercalate ["NUMBERS"] : String) = "NUMBERS" from rfl]
  · simp [Load, recursiveLoadToStruct, loopOverFields, loopFieldsList,
      loadToField, loadToFieldCore, setFieldVal, setSliceParts, buildEnvKey,
      getFieldName, joinKeys, getDirectType, getDirectVal, setDirect, isStruct,
      zeroVal, UperCaseTransformer, uperCaseAux, canToUpper, goSplit,
      goSplitAux, List.isSuffixOf, goParseInt64, digitsToNat, digitsToNat.go,
      wrapInt, New, WithArraySeparator, DefaultSep, DefaultArrSep,
      numbersMeta,
      show ("_".intercalate ["NUMBERS"] : String) = "NUMBERS" from rfl]

/-- C8: when a field fails, the caller receives exactly the first failing
field's error (in declaration order): every field before it keeps the value
its processing assigned, every field after it keeps its original value
untouched, and the returned outcome carries no partial-success flag. -/
theorem C8_first_error_wins (c : Loader) (env : Env) (keys : List String)
    (fs1 : List (FieldMeta × Ty)) (vs1 : List Val) (b : Bool)
    (rs1 : List Val) (f : FieldMeta × Ty) (v : Val)
    (fs2 : List (FieldMeta × Ty)) (vs2 : List Val) (e : Err) (v2 : Val)
    (hlen : fs1.length = vs1.length)
    (hok : loopFieldsList c env fs1 vs1 keys = .ok b rs1)
    (hbad : loadToField c env f.1 f.2 v keys = .err e v2) :
    loopFieldsList c env (fs1 ++ f :: fs2) (vs1 ++ v :: vs2) keys =
      .err e (rs1 ++ v2 :: vs2) :=
  loopFieldsList_first_err c env keys fs1 vs1 b rs1 f v fs2 vs2 e v2 hlen hok
    hbad

theorem C8_first_error_wins_witness :
    loopFieldsList (New [])
      (fun k => if k = "HOST" then some "x"
        else if k = "PORT" then some "abc"
        else if k = "DEBUG" then some "true" else none)
      [(hostTagMeta, .str), (portTagMeta, .int 64), (debugTagMeta, .bool)]
      [.str "", .int 64 0, .bool false] [] =
      .err (.cannotSetField "PORT" (.parseErr "ParseInt" "abc"))
        ([.str "x"] ++ (.int 64 0) :: [.bool false]) := by
  have h := C8_first_error_wins (New [])
    (fun k => if k = "HOST" then some "x"
      else if k = "PORT" then some "abc"
      else if k = "DEBUG" then some "true" else none) []
    [(hostTagMeta, .str)]
    [.str ""] true [.str "x"]
    (portTagMeta, .int 64)
    (.int 64 0)
    [(debugTagMeta, .bool)]
    [.bool false]
    (.cannotSetField "PORT" (.parseErr "ParseInt" "abc")) (.int 64 0)
    rfl
    (by simp [loopFieldsList, loadToField, loadToFieldCore, setFieldVal,
      buildEnvKey, getFieldName, joinKeys, getDirectType, getDirectVal,
      setDirect, isStruct, New, DefaultSep, hostTagMeta])
    (by simp [loadToField, loadToFieldCore, setFieldVal, buildEnvKey,
      getFieldName, joinKeys, getDirectType, getDirectVal, setDirect,
      isStruct, goParseInt64, digitsToNat, digitsToNat.go, New, DefaultSep,
      portTagMeta])
  exact h

/-- C9: a record containing (at any position) an exported, already non-nil
pointer-to-record field makes the bind fail whatever the environment holds:
the recursion passes a pointer-to-pointer to the walker, whose field
enumeration panics on the still-pointer-shaped value, and the panic guard
converts the fault into an error.  (In the modelled universe no struct type
implements the decode-from-text capability, matching the claim's
exclusion.) -/
theorem C9_nonnil_pointer_always_errors (c : Loader) (env : Env)
    (fs1 : List (FieldMeta × Ty)) (vs1 : List Val) (m : FieldMeta)
    (hs : List (FieldMeta × Ty)) (ws : List Val)
    (fs2 : List (FieldMeta × Ty)) (vs2 : List Val)
    (hlen : fs1.length = vs1.length) (hcs : m.canSet = true) :
    ∃ (e : Err) (v : Val),
      Load c env (.ptr (.struc (fs1 ++ (m, .ptr (.struc hs)) :: fs2)))
        (.ptr (some (.struc (vs1 ++ (.ptr (some (.struc ws))) :: vs2)))) =
        .err e v := by
  obtain ⟨e, rs, hlist⟩ :=
    recursiveLoad_err_of_nonnil_ptr c env [] fs1 vs1 m hs ws fs2 vs2 hlen hcs
  refine ⟨e, .ptr (some (.struc rs)), ?_⟩
  rw [Load, recursiveLoadToStruct]
  have hgd :
      getDirectType (Ty.ptr (Ty.struc (fs1 ++ (m, .ptr (.struc hs)) :: fs2)))
        = Ty.struc (fs1 ++ (m, .ptr (.struc hs)) :: fs2) := rfl
  rw [hgd]
  rw [loopOverFields]
  rw [hlist]
  simp

theorem C9_nonnil_pointer_always_errors_witness :
    ∃ (e : Err) (v : Val),
      Load (New []) (fun _ => none)
        (.ptr (.struc [(serverMeta, .ptr (.struc []))]))
        (.ptr (some (.struc [.ptr (some (.struc []))]))) = .err e v := by
  have h := C9_nonnil_pointer_always_errors (New []) (fun _ => none) [] []
    serverMeta [] [] [] [] rfl (by rfl)
  simpa using h

/-- C4 counterexample, two concrete refutations: (i) with two leaves
(`A`, `B`) beneath the nil pointer field present in the environment, the
record ends with BOTH leaves populated, so "that leaf holds the coerced
value and every other field holds its zero value" fails for either leaf;
(ii) with a doubly-indirect record field (`Bad **struct`) inside the
pointee and a leaf (`A`) present, the bind returns an error and the field
stays nil instead of ending non-nil. -/
theorem C4_counterexample :
    loadToField (New [])
      (fun k => if k = "A" then some "1"
        else if k = "B" then some "2" else none)
      serverMeta (.ptr (.struc [(aTagMeta, .int 64), (bTagMeta, .int 64)]))
      (.ptr none) [] =
      .ok true (.ptr (some (.struc [.int 64 1, .int 64 2]))) ∧
    loadToField (New [])
      (fun k => if k = "A" then some "1" else none)
      serverMeta
      (.ptr (.struc [(aTagMeta, .int 64), (badMeta, .ptr (.ptr (.struc [])))]))
      (.ptr none) [] =
      .err (.panicAtStruct "**struct" "SERVER_BAD" numFieldPanicMsg)
        (.ptr none) := by
  constructor
  · simp [loadToField, loadToFieldCore, setFieldVal, setStructVal,
      recursiveLoadToStruct, loopOverFields, loopFieldsList, buildEnvKey,
      getFieldName, joinKeys, getDirectType, getDirectVal, setDirect,
      isStruct, zeroVal, zeroVals, UperCaseTransformer, uperCaseAux,
      canToUpper, goParseInt64, digitsToNat, digitsToNat.go, wrapInt, New,
      DefaultSep, serverMeta, aTagMeta, bTagMeta, unwrapAddr,
      show ("_".intercalate ["SERVER"] : String) = "SERVER" from rfl]
  · simp [loadToField, loadToFieldCore, setFieldVal, setStructVal,
      recursiveLoadToStruct, loopOverFields, loopFieldsList, buildEnvKey,
      getFieldName, joinKeys, getDirectType, getDirectVal, setDirect,
      isStruct, zeroVal, zeroVals, UperCaseTransformer, uperCaseAux,
      canToUpper, goParseInt64, digitsToNat, digitsToNat.go, wrapInt, New,
      DefaultSep, serverMeta, aTagMeta, badMeta, unwrapAddr, typeName,
      show ("_".intercalate ["SERVER"] : String) = "SERVER" from rfl,
      show ("_".intercalate ["SERVER", "BAD"] : String) = "SERVER_BAD"
        from rfl]

/-- C4 (amended): for an initially-nil, settable pointer-to-record field
whose pointee shape is benign (no doubly-indirect record fields):
(1) when every key derivable at or beneath the field is absent, the bind
leaves the field nil, reports nothing found and no error;
(2) when exactly one derivable leaf beneath it is present with a
successfully coercing value and every other derivable key is absent (the
`SinglePath` description), the field ends non-nil and points to a record
holding that leaf's coerced value with every other field at its zero
value. -/
theorem C4_amended_pointer_fields (c : Loader) (env : Env) (m : FieldMeta)
    (gs : List (FieldMeta × Ty)) (keys : List String) :
    ((∀ k ∈ fieldKeys c (m, .ptr (.struc gs)) keys, env k = none) →
      benignField (m, .ptr (.struc gs)) = true →
      loadToField c env m (.ptr (.struc gs)) (.ptr none) keys =
        .ok false (.ptr none)) ∧
    (∀ v, SinglePath c env keys m (.ptr (.struc gs)) v →
      ∃ vs, v = .ptr (some (.struc vs)) ∧
        loadToField c env m (.ptr (.struc gs)) (.ptr none) keys =
          .ok true v) := by
  constructor
  · intro habs hben
    have h := (absent_main c env (sizeOf (Ty.ptr (Ty.struc gs)))).1 m
      (.ptr (.struc gs)) keys le_rfl habs hben
    have hz : zeroVal (Ty.ptr (Ty.struc gs)) = Val.ptr none := by
      simp [zeroVal]
    rw [hz] at h
    exact h
  · intro v hsp
    have h := singlePath_sound c env keys m (.ptr (.struc gs)) v hsp
    have hz : zeroVal (Ty.ptr (Ty.struc gs)) = Val.ptr none := by
      simp [zeroVal]
    rw [hz] at h
    cases hsp with
    | leaf _ _ _ s _ hcs henv hset =>
      exfalso
      have hcomp :
          setFieldVal c (.ptr (.struc gs)) (zeroVal (.ptr (.struc gs))) s =
            .ok false (.ptr (some (zeroVal (.struc gs)))) := by
        rw [hz, setFieldVal]
        simp [getDirectVal, zeroVal]
      rw [hcomp] at hset
      simp at hset
    | intoPtrStruct _ _ _ vs hcs henv hsp2 =>
      exact ⟨vs, rfl, h⟩

theorem C4_amended_pointer_fields_witness :
    loadToField (New [])
      (fun k => if k = "SERVER_HOST" then some "x" else none)
      serverMeta (.ptr (.struc [(hostMeta, .str)])) (.ptr none) [] =
      .ok true (.ptr (some (.struc [.str "x"]))) := by
  have hz0 : zeroVals ([] : List (FieldMeta × Ty)) = [] := by
    simp [zeroVals]
  have hsetf : setFieldVal (New []) Ty.str (zeroVal Ty.str) "x" =
      .ok true (.str "x") := by
    have hzs : zeroVal Ty.str = Val.str "" := by simp [zeroVal]
    rw [hzs, setFieldVal]
    · simp [getDirectVal, setDirect]
    · intro t h1 h2
      simp at h1
  have hleaf := @SinglePath.leaf (New [])
    (fun k => if k = "SERVER_HOST" then some "x" else none)
    ["SERVER"] hostMeta Ty.str "x" (Val.str "x") rfl (by decide) hsetf
  have hsp1 := @StructPath.here (New [])
    (fun k => if k = "SERVER_HOST" then some "x" else none)
    ["SERVER"] (hostMeta, Ty.str) [] (Val.str "x") hleaf
    (by intro g hg; simp at hg)
  rw [hz0] at hsp1
  have hsp := @SinglePath.intoPtrStruct (New [])
    (fun k => if k = "SERVER_HOST" then some "x" else none)
    [] serverMeta [(hostMeta, Ty.str)] [Val.str "x"] rfl (by decide) hsp1
  obtain ⟨vs, hv, hload⟩ :=
    (C4_amended_pointer_fields (New [])
      (fun k => if k = "SERVER_HOST" then some "x" else none)
      serverMeta [(hostMeta, Ty.str)] []).2 _ hsp
  exact hload

/-- C5 counterexample: the record shape with the single field
`Bad **struct` errors on a completely empty environment: the walker is
handed a pointer-to-pointer, its field enumeration panics, and the guard
reports the recovered panic — refuting "for every record shape ... returns
no error". -/
theorem C5_counterexample :
    Load (New []) (fun _ => none)
      (.ptr (.struc [(badMeta, .ptr (.ptr (.struc [])))]))
      (.ptr (some (.struc [.ptr none]))) =
      .err (.panicAtStruct "**struct" "BAD" numFieldPanicMsg)
        (.ptr (some (.struc [.ptr none]))) := by
  simp [Load, recursiveLoadToStruct, loopOverFields, loopFieldsList,
    loadToField, loadToFieldCore, setFieldVal, setStructVal, buildEnvKey,
    getFieldName, joinKeys, getDirectType, getDirectVal, isStruct, zeroVal,
    zeroVals, UperCaseTransformer, uperCaseAux, canToUpper, New, DefaultSep,
    badMeta, typeName, unwrapAddr,
    show ("_".intercalate ["BAD"] : String) = "BAD" from rfl]

/-- C5 (amended): for every record shape without doubly-indirect record
fields (benign), binding a zero-valued instance under an environment with
none of the derivable lookup keys present returns no error, reports
found = false at the root, and leaves every field at its zero value. -/
theorem C5_amended_empty_env (c : Loader) (env : Env)
    (gs : List (FieldMeta × Ty)) (hben : benignFields gs = true)
    (habs : ∀ k ∈ structKeys c gs [], env k = none) :
    Load c env (.ptr (.struc gs)) (.ptr (some (zeroVal (.struc gs)))) =
      .ok false (.ptr (some (zeroVal (.struc gs)))) := by
  have hlist := (absent_main c env (sizeOf gs)).2 gs [] le_rfl
    (fun f hf => ⟨fun k hk => habs k (mem_structKeys hf hk),
      benignFields_mem hben hf⟩)
  have hz : zeroVal (Ty.struc gs) = .struc (zeroVals gs) := by simp [zeroVal]
  rw [hz, Load, recursiveLoadToStruct]
  have hgd : getDirectType (Ty.ptr (Ty.struc gs)) = .struc gs := rfl
  rw [hgd, loopOverFields, hlist]
  simp

theorem C5_amended_empty_env_witness :
    Load (New []) (fun _ => none)
      (.ptr (.struc [(hostMeta, .str), (numbersMeta, .slice (.int 64))]))
      (.ptr (some (.struc [.str "", .slice none]))) =
      .ok false (.ptr (some (.struc [.str "", .slice none]))) := by
  have h := C5_amended_empty_env (New []) (fun _ => none)
    [(hostMeta, .str), (numbersMeta, .slice (.int 64))]
    (by simp [benignFields, benignTy, hostMeta, numbersMeta])
    (fun k _ => rfl)
  simpa [zeroVal, zeroVals] using h

end GoConfig
